import Mathlib

/-!
Verification of the elfo actor-runtime core against its specification.

The definitions below are a shallow embedding of the Rust sources:
  * `src/elfo-core/src/context/source.rs` — the `Source` polling contract,
    the unit source and the `Combined` combinator;
  * `src/elfo-core/src/dumping.rs` — the sharded dumping pipeline;
  * `src/elfo-core/src/address_book.rs` — the address book over a sharded slab;
  * `src/elfo-core/src/supervisor.rs` — envelope routing (`do_handle`),
    config updates (`handle`) and the spawned-actor wrapper.

Parts of the repository that are not present under `src/` (the `Addr`
encoding from `addr.rs`, the sequence-number generator, the actor state
machine) are modelled from the specification; each such definition carries
a doc comment starting with `Modelled from the spec:`.
-/

namespace Elfo

/-! ### Source combinator (`src/elfo-core/src/context/source.rs`) -/

/-- Result of `Source::poll_recv`: `Poll<Option<Envelope>>` in the Rust code.
`ready none` means the source is permanently drained. -/
inductive Poll (α : Type) where
  | pending : Poll α
  | ready : Option α → Poll α
deriving DecidableEq

/-- A source is embedded as its `poll_recv` function: given a poll context
(type `χ`, kept abstract) it yields a `Poll`.  `&self` receivers make the
Rust method a pure function of the context for the purposes of one poll. -/
def SourceFn (χ α : Type) : Type := χ → Poll α

/-- `impl Source for ()` (source.rs, lines 23–28): always `Poll::Ready(None)`. -/
def unitPoll {χ α : Type} : SourceFn χ α := fun _ => Poll.ready none

/-- `Combined::poll_recv` (source.rs, lines 36–52): poll `left`; on
`Ready(Some)` return it; on `Ready(None)` return `right`'s poll; on
`Pending` poll `right` and return its item if any, else `Pending`. -/
def combinedPoll {χ α : Type} (left right : SourceFn χ α) : SourceFn χ α := fun cx =>
  match left cx with
  | Poll.ready (some e) => Poll.ready (some e)
  | Poll.ready none => right cx
  | Poll.pending =>
    match right cx with
    | Poll.ready (some e) => Poll.ready (some e)
    | _ => Poll.pending

/-! ### Dumper (`src/elfo-core/src/dumping.rs`) -/

def SHARD_MAX_LEN : Nat := 300000

/-- A dump item, reduced to the fields the claims talk about: the per-group
sequence number and an opaque payload standing for the rest of the record. -/
structure DumpItem where
  sequence_no : Nat
  payload : Nat
deriving DecidableEq

/-- Observable side effects of one `Dumper::dump` call other than the queue
update.  The Rust drop branch is `return;` preceded by
`// TODO: emit some metric.`, so no constructor is ever produced for a
metric; the type records what *could* be emitted so that absence is a
provable statement. -/
inductive DumpEffect where
  | metricIncremented : DumpEffect
deriving DecidableEq

/-- State of one shard queue together with the per-group sequence generator.
`nextSeqState` is the generator state: the value of the last issued
sequence number (`0` initially, so the first generated number is `1`). -/
structure DumpState where
  gen : Nat
  queue : List DumpItem
deriving DecidableEq

/-- Modelled from the spec: `SequenceNoGenerator` (file
`dumping/sequence_no.rs`, not under `src/`) — "a monotonic sequence-number
generator" per group; the in-repo test expects the first generated value to
be `1` and values to increase by one per call. -/
def generateSeqNo (g : Nat) : Nat × Nat := (g + 1, g + 1)

/-- `Dumper::dump` (dumping.rs, lines 122–156), restricted to one shard:
the `DumpItem` — including its sequence number — is built *before* the
queue is examined; then, if the queue already holds `SHARD_MAX_LEN` items,
the item is dropped and nothing else happens (the metric is a `TODO` in the
source); otherwise the item is pushed to the back. -/
def dump (st : DumpState) (payload : Nat) : DumpState × List DumpEffect :=
  let p := generateSeqNo st.gen
  let item : DumpItem := { sequence_no := p.2, payload := payload }
  if st.queue.length ≥ SHARD_MAX_LEN then
    ({ gen := p.1, queue := st.queue }, [])
  else
    ({ gen := p.1, queue := st.queue ++ [item] }, [])

/-- Push `payloads` one by one into a single shard without draining. -/
def dumpAll (st : DumpState) (payloads : List Nat) : DumpState :=
  payloads.foldl (fun s x => (dump s x).1) st

/-- The empty dumper state: fresh generator, empty shard queue. -/
def dumpState0 : DumpState := { gen := 0, queue := [] }

/-- Items with consecutive sequence numbers `g+1, g+2, …` carrying the given
payloads; characterizes what a run of successful `dump` calls enqueues. -/
def seqItems (g : Nat) : List Nat → List DumpItem
  | [] => []
  | p :: ps => { sequence_no := g + 1, payload := p } :: seqItems (g + 1) ps

/-! ### Address book (`src/elfo-core/src/address_book.rs`)

`addr.rs` is not under `src/`, so the `Addr` encoding is modelled from the
spec (§3 "Data model", §4.1 "Address resolution rule"):

  * an `Addr` is a 64-bit value with a slot key (slab index + generation)
    in its low bits, the node-launch-id salt above it, and the group number
    at the top ("the high bits — group + launch id — are validated
    explicitly", "the group or launch-id bits that the top of Addr
    carries");
  * the slab checks only the low index/generation bits of a key ("the slab
    only checks the low bits"; the code comment in `get` says the same);
  * the distinguished `NULL` address is the zero value and never resolves.

Bit widths are a modelling choice (the spec fixes only the regions):
index 20 bits, generation 12 bits (so slab keys live below `2^32`),
launch-id salt 16 bits at `2^32`, group number at `2^48`. -/

def INDEX_SPACE : Nat := 2 ^ 20
def GEN_SPACE : Nat := 2 ^ 12
def SLAB_SPACE : Nat := 2 ^ 32
def SALT_SPACE : Nat := 2 ^ 16

/-- Modelled from the spec: `Addr` (from the missing `addr.rs`) is a 64-bit
opaque identifier; we keep it as the raw numeric value. -/
abbrev Addr : Type := Nat

/-- Modelled from the spec: the distinguished `NULL` address. -/
def Addr.null : Addr := (0 : Nat)

/-- Modelled from the spec: `Addr::new_local(slot_key, group_no, launch_id)`
(called by `VacantEntry::addr`, address_book.rs line 126) — the final `Addr`
is computed from the slab-assigned slot key, the group and the launch id:
the slot key fills the low bits, the launch-id salt sits above the
slab-checked bits, and the group number occupies the top region.  `GroupNo`
and `NodeLaunchId` are small fixed-width integers, hence the masks. -/
def Addr.new_local (slot_key : Nat) (group_no : Nat) (launch_id : Nat) : Addr :=
  ((group_no % 2 ^ 8) * SALT_SPACE + launch_id % SALT_SPACE) * SLAB_SPACE + slot_key

/-- Modelled from the spec: `addr.is_null()`. -/
def Addr.is_null (a : Addr) : Bool := (a : Nat) == 0

/-- Modelled from the spec: `addr.into_bits()` — the raw 64-bit value. -/
def Addr.into_bits (a : Addr) : Nat := a

/-- Modelled from the spec: `addr.slot_key(launch_id)` — the key handed to
the sharded slab.  The slab checks only the low index/generation bits (the
source comment: "sharded-slab doesn't check top bits"), and in this model
the slot key occupies exactly the low bits of the address, so the raw bits
are handed over; the launch-id and group bits above are validated by the
explicit self-`Addr` equality check in `get`/`get_owned`. -/
def Addr.slot_key (a : Addr) (_launch_id : Nat) : Nat := (a : Nat)

/-- Launch-id salt region of an address (bits 32..48 in this model). -/
def Addr.salt (a : Addr) : Nat := ((a : Nat) / SLAB_SPACE) % SALT_SPACE

/-- The value stored at a slot.  Each object knows its own `Addr`
(`object.addr()` in the Rust code); the payload stands for the rest. -/
structure Object where
  addr : Addr
  payload : Nat
deriving DecidableEq

/-- One slot of the sharded slab: a generation tag plus the optional
occupant.  `gen` is kept below `GEN_SPACE` by the operations. -/
structure Slot where
  gen : Nat
  content : Option Object
deriving DecidableEq

/-- The local slot table: slot `i` of the slab is entry `i` of the list. -/
abbrev Slab : Type := List Slot

/-- `sharded_slab::Slab::get(key)`: only the low bits of the key are
checked — the index and the generation; the entry is returned when the slot
exists, is occupied and its generation tag matches the key's. -/
def slabGet (s : Slab) (key : Nat) : Option Object :=
  let low := key % SLAB_SPACE
  let i := low % INDEX_SPACE
  let g := low / INDEX_SPACE
  match (s : List Slot).get? i with
  | some slot => if slot.gen = g then slot.content else none
  | none => none

/-- `sharded_slab::Slab::remove(key)`: same key decoding as `get`; on a
generation match of an occupied slot, the slot is emptied and its
generation tag advances, so the old key never matches again. -/
def slabRemove (s : Slab) (key : Nat) : Slab :=
  let low := key % SLAB_SPACE
  let i := low % INDEX_SPACE
  let g := low / INDEX_SPACE
  match (s : List Slot).get? i with
  | some slot =>
    if slot.gen = g ∧ slot.content ≠ none then
      (s : List Slot).set i { gen := (slot.gen + 1) % GEN_SPACE, content := none }
    else s
  | none => s

/-- `AddressBook` (address_book.rs, lines 11–17): the launch id and the
local slot table (the `network` feature is compiled out, as in the
`cfg(not(feature = "network"))` branch). -/
structure AddressBook where
  launch_id : Nat
  local_slab : Slab
deriving DecidableEq

namespace AddressBook

/-- `AddressBook::new(launch_id)` (address_book.rs, lines 22–34). -/
def new (launch_id : Nat) : AddressBook := { launch_id := launch_id, local_slab := [] }

/-- `AddressBook::prepare_addr` (address_book.rs, lines 95–111) without the
`network` feature: `None` for the null address, otherwise the address
itself. -/
def prepare_addr (_b : AddressBook) (a : Addr) : Option Addr :=
  if a.is_null then none else some a

/-- `AddressBook::get` (address_book.rs, lines 60–67): prepare the address,
look the slot key up in the slab, then keep the result only when the
object's recorded `Addr` equals the queried one. -/
def get (b : AddressBook) (a : Addr) : Option Object :=
  match b.prepare_addr a with
  | none => none
  | some a => (slabGet b.local_slab (a.slot_key b.launch_id)).filter fun o => o.addr = a

/-- `AddressBook::remove` (address_book.rs, lines 91–93):
`self.local.remove(addr.into_bits() as usize)`. -/
def remove (b : AddressBook) (a : Addr) : AddressBook :=
  { b with local_slab := slabRemove b.local_slab a.into_bits }

/-- `AddressBook::vacant_entry(group_no)` followed by
`VacantEntry::insert(object)` with `object = Object::new(entry.addr(), …)`
(address_book.rs lines 80–89 and 114–128; this pairing is how the
supervisor uses the book, supervisor.rs lines 236–286).  The reserved
slot's key is its index plus the current generation tag; the resulting
address is `Addr::new_local(key, group_no, launch_id)`.  Returns the
updated book and the minted address, or `none` when the slab is exhausted
("too many actors"). -/
def reserveInsert (b : AddressBook) (group_no : Nat) (payload : Nat) :
    AddressBook × Option Addr :=
  match (b.local_slab : List Slot).findIdx? (fun slot => slot.content = none) with
  | some i =>
    let slot := ((b.local_slab : List Slot).get? i).getD { gen := 0, content := none }
    let key := slot.gen * INDEX_SPACE + i
    let a := Addr.new_local key group_no b.launch_id
    ({ b with
        local_slab :=
          (b.local_slab : List Slot).set i { gen := slot.gen, content := some ⟨a, payload⟩ } },
      some a)
  | none =>
    if (b.local_slab : List Slot).length < INDEX_SPACE then
      let key := (b.local_slab : List Slot).length
      let a := Addr.new_local key group_no b.launch_id
      ({ b with
          local_slab := (b.local_slab : List Slot) ++ [{ gen := 0, content := some ⟨a, payload⟩ }] },
        some a)
    else (b, none)

end AddressBook

/-- A single operation on an address book, for quantifying over arbitrary
usage histories: reserve-and-insert into a group, or remove an address. -/
inductive BookOp where
  | mint : Nat → Nat → BookOp
  | del : Addr → BookOp
deriving DecidableEq

/-- Run a sequence of operations on a book. -/
def runBook (b : AddressBook) : List BookOp → AddressBook
  | [] => b
  | BookOp.mint g p :: ops => runBook (b.reserveInsert g p).1 ops
  | BookOp.del a :: ops => runBook (b.remove a) ops


/-- Well-formedness of a slab: at most `INDEX_SPACE` slots, and every
generation tag fits the generation region.  The operations preserve it. -/
def SlabInv (s : Slab) : Prop :=
  s.length ≤ INDEX_SPACE ∧ ∀ slot ∈ s, slot.gen < GEN_SPACE

/-- Every occupied slot of the slab holds an object whose recorded address
carries the launch-id salt of `L` — the books only ever store objects at
addresses they minted themselves. -/
def SaltInv (L : Nat) (s : Slab) : Prop :=
  ∀ slot ∈ s, ∀ o : Object, slot.content = some o → o.addr.salt = L % SALT_SPACE

/-- The addresses observed from the vacant entries while running a sequence
of operations. -/
def mintedAddrs : AddressBook → List BookOp → List Addr
  | _, [] => []
  | b, BookOp.mint g p :: ops =>
    match b.reserveInsert g p with
    | (b2, some a) => a :: mintedAddrs b2 ops
    | (b2, none) => mintedAddrs b2 ops
  | b, BookOp.del a :: ops => mintedAddrs (b.remove a) ops

/-! ### Supervisor (`src/elfo-core/src/supervisor.rs`) -/

/-- Result of `Mailbox::try_send` (`errors::TrySendError`): accepted, or the
envelope comes back with `Full`/`Closed`.  Which of the three a given actor
produces is part of the delivery environment below. -/
inductive SendRes where
  | ok : SendRes
  | full : SendRes
  | closed : SendRes
deriving DecidableEq

/-- An entry of the supervisor's keyed object map, reduced to what
`do_handle` observes: the object's address and how its mailbox answers
`try_send`. -/
structure SvObject where
  addr : Addr
  res : SendRes
deriving DecidableEq

/-- `Outcome<K>` (`routers::Outcome`). -/
inductive Outcome (K : Type) where
  | unicast : K → Outcome K
  | multicast : List K → Outcome K
  | broadcast : Outcome K
  | discard : Outcome K
  | dfl : Outcome K
deriving DecidableEq

/-- `RouteReport` (supervisor.rs, lines 302–307). -/
inductive RouteReport (E : Type) where
  | done : RouteReport E
  | closed : E → RouteReport E
  | wait : Addr → E → RouteReport E
  | waitAll : Bool → List (Addr × E) → RouteReport E
deriving DecidableEq

/-- The environment a `do_handle` call runs in: the keyed object map
(`self.objects`, in iteration order), what `self.spawn(key)` would return
for a missing key, and the result of the `i`-th
`envelope.duplicate(book)` call made during the loop (`none` when the
requester has died and duplication is impossible). -/
structure DEnv (K E : Type) where
  objects : List (K × SvObject)
  spawn : K → SvObject
  dup : Nat → Option E

/-- Running state of the `Multicast`/`Broadcast` loops: the (possibly
grown) object map, the collected waiters, the `someone` flag, the number of
duplication attempts made so far, and the addresses of the recipients on
which `try_send` was actually called. -/
structure LoopState (K E : Type) where
  objs : List (K × SvObject)
  waiters : List (Addr × E)
  someone : Bool
  dupIdx : Nat
  tried : List K

/-- Map lookup `self.objects.get(&key)`. -/
def findObj {K : Type} [DecidableEq K] (objs : List (K × SvObject)) (k : K) :
    Option SvObject :=
  (objs.find? fun p => p.1 = k).map fun p => p.2

/-- `self.objects.entry(key).or_insert_with(|| self.spawn(key))` on a miss
(supervisor.rs lines 144–149 and 164–169): the object for the key, plus
the map extended when the key was absent. -/
def lookupOrSpawn {K E : Type} [DecidableEq K] (env : DEnv K E)
    (objs : List (K × SvObject)) (k : K) : SvObject × List (K × SvObject) :=
  match findObj objs k with
  | some o => (o, objs)
  | none => (env.spawn k, objs ++ [(k, env.spawn k)])

/-- One iteration of the `Multicast` loop (supervisor.rs, lines 163–186):
look up or spawn the key, duplicate the envelope — on `None` `continue` to
the next key — then `try_send` the duplicate: `Ok` sets `someone`, `Full`
pushes `(object.addr(), envelope)` onto the waiters, `Closed` is ignored. -/
def multicastStep {K E : Type} [DecidableEq K] (env : DEnv K E)
    (st : LoopState K E) (k : K) : LoopState K E :=
  let p := lookupOrSpawn env st.objs k
  match env.dup st.dupIdx with
  | none => { st with objs := p.2, dupIdx := st.dupIdx + 1 }
  | some d =>
    match p.1.res with
    | SendRes.ok =>
      { objs := p.2, waiters := st.waiters, someone := true,
        dupIdx := st.dupIdx + 1, tried := st.tried ++ [k] }
    | SendRes.full =>
      { objs := p.2, waiters := st.waiters ++ [(p.1.addr, d)], someone := st.someone,
        dupIdx := st.dupIdx + 1, tried := st.tried ++ [k] }
    | SendRes.closed =>
      { objs := p.2, waiters := st.waiters, someone := st.someone,
        dupIdx := st.dupIdx + 1, tried := st.tried ++ [k] }

/-- The `Broadcast` loop (supervisor.rs, lines 203–219): iterate the object
map; a failed duplication returns `RouteReport::Done` at once (the `Bool`
flags that early return), otherwise `try_send` as in `Multicast`. -/
def broadcastLoop {K E : Type} (dup : Nat → Option E) :
    List (K × SvObject) → LoopState K E → LoopState K E × Bool
  | [], st => (st, false)
  | (k, o) :: rest, st =>
    match dup st.dupIdx with
    | none => ({ st with dupIdx := st.dupIdx + 1 }, true)
    | some d =>
      match o.res with
      | SendRes.ok =>
        broadcastLoop dup rest
          { st with someone := true, dupIdx := st.dupIdx + 1, tried := st.tried ++ [k] }
      | SendRes.full =>
        broadcastLoop dup rest
          { st with waiters := st.waiters ++ [(o.addr, d)],
                    dupIdx := st.dupIdx + 1, tried := st.tried ++ [k] }
      | SendRes.closed =>
        broadcastLoop dup rest
          { st with dupIdx := st.dupIdx + 1, tried := st.tried ++ [k] }

/-- The common tail of the `Multicast`/`Broadcast` arms (supervisor.rs,
lines 188–196 and 221–229): no waiters and someone accepted — `Done`; no
waiters and nobody accepted — `Closed(envelope)` with the original
envelope; otherwise `WaitAll(someone, waiters)`. -/
def finishReport {K E : Type} (e0 : E) (st : LoopState K E) : RouteReport E :=
  if st.waiters.isEmpty then
    if st.someone then RouteReport.done else RouteReport.closed e0
  else RouteReport.waitAll st.someone st.waiters

/-- The initial loop state for a `do_handle` call. -/
def loopState0 {K E : Type} (env : DEnv K E) : LoopState K E :=
  { objs := env.objects, waiters := [], someone := false, dupIdx := 0, tried := [] }

/-- `Supervisor::do_handle` (supervisor.rs, lines 140–233), instrumented:
besides the returned `RouteReport` it exposes the final loop state (for the
multi-target arms).  `Unicast` looks up or spawns the single key and maps
`try_send` of the *original* envelope to `Done`/`Wait`/`Closed`; `Discard`
and `Default` return `Done`. -/
def doHandleFull {K E : Type} [DecidableEq K] (env : DEnv K E) (e0 : E) :
    Outcome K → RouteReport E × LoopState K E
  | Outcome.unicast k =>
    let p := lookupOrSpawn env env.objects k
    let report :=
      match p.1.res with
      | SendRes.ok => RouteReport.done
      | SendRes.full => RouteReport.wait p.1.addr e0
      | SendRes.closed => RouteReport.closed e0
    (report, { loopState0 env with objs := p.2, tried := [k] })
  | Outcome.multicast ks =>
    let st := ks.foldl (multicastStep env) (loopState0 env)
    (finishReport e0 st, st)
  | Outcome.broadcast =>
    let p := broadcastLoop env.dup env.objects (loopState0 env)
    (if p.2 then RouteReport.done else finishReport e0 p.1, p.1)
  | Outcome.discard => (RouteReport.done, loopState0 env)
  | Outcome.dfl => (RouteReport.done, loopState0 env)

/-- `Supervisor::do_handle` proper: just the `RouteReport`. -/
def doHandle {K E : Type} [DecidableEq K] (env : DEnv K E) (e0 : E)
    (oc : Outcome K) : RouteReport E :=
  (doHandleFull env e0 oc).1

/-- The send behaviour `do_handle` observes for a key: the mapped object
if present, otherwise the object `spawn` would create. -/
def objValue {K E : Type} [DecidableEq K] (env : DEnv K E) (k : K) : SvObject :=
  (findObj env.objects k).getD (env.spawn k)

/-! #### Config updates (`Supervisor::handle`, supervisor.rs lines 109–132) -/

/-- The control block (supervisor.rs, lines 39–41): the stored config. -/
structure ControlBlock (C : Type) where
  config : Option C
deriving DecidableEq

/-- Reply sent through a request token. -/
inductive CfgReply where
  | configRejected : String → CfgReply
deriving DecidableEq

/-- Everything a `Supervisor::handle` call on an `UpdateConfig` envelope
does, as observable data: the control block afterwards, the arguments of
the `router.update` calls made, the replies sent through the request token,
whether `router.route`/`do_handle` ran, and the returned report. -/
structure UpdateResult (C E : Type) where
  control : ControlBlock C
  routerUpdates : List C
  replies : List CfgReply
  routed : Bool
  report : RouteReport E
deriving DecidableEq

/-- The `UpdateConfig` arm of `Supervisor::handle` (supervisor.rs, lines
109–132).  `dec` is the result of `config.decode::<C>()`.  On success the
decoded config is written into the control block, `router.update` is called
and routing proceeds (`routeReport` abstracts the `do_handle` call on the
re-injected envelope).  On a decode failure a `ConfigRejected{reason}`
reply is sent through the token and `Done` is returned — nothing else
happens. -/
def handleUpdateConfig {C E : Type} (control : ControlBlock C)
    (dec : Except String C) (routeReport : RouteReport E) : UpdateResult C E :=
  match dec with
  | Except.ok cfg =>
    { control := { config := some cfg }, routerUpdates := [cfg], replies := [],
      routed := true, report := routeReport }
  | Except.error reason =>
    { control := control, routerUpdates := [], replies := [CfgReply.configRejected reason],
      routed := false, report := RouteReport.done }

/-! #### The spawned-actor wrapper (supervisor.rs, lines 260–281) -/

/-- How the actor's future ended: `Ok(Ok(()))`, `Ok(Err(err))` or a caught
panic. -/
inductive ExecOutcome where
  | ok : ExecOutcome
  | failed : ExecOutcome
  | panicked : ExecOutcome
deriving DecidableEq

/-- The steps the wrapper around a spawned actor future performs, in
order. -/
inductive WrapperEvent (K : Type) where
  | logStarted : WrapperEvent K
  | logFinished : WrapperEvent K
  | logFailed : WrapperEvent K
  | logPanicked : WrapperEvent K
  | sendActorBlocked : K → WrapperEvent K
  | sleepRestartDelay : WrapperEvent K
  | sendActorRestarted : K → WrapperEvent K
deriving DecidableEq

/-- The wrapper future built in `Supervisor::spawn` (supervisor.rs, lines
260–281): log `started`; await the actor; on clean completion just log
`finished` and return; on error or panic log it, send `ActorBlocked{key}`
to the supervisor, sleep the fixed restart delay, then send
`ActorRestarted{key}`. -/
def actorWrapper {K : Type} (out : ExecOutcome) (k : K) : List (WrapperEvent K) :=
  WrapperEvent.logStarted ::
    match out with
    | ExecOutcome.ok => [WrapperEvent.logFinished]
    | ExecOutcome.failed =>
      [WrapperEvent.logFailed, WrapperEvent.sendActorBlocked k,
        WrapperEvent.sleepRestartDelay, WrapperEvent.sendActorRestarted k]
    | ExecOutcome.panicked =>
      [WrapperEvent.logPanicked, WrapperEvent.sendActorBlocked k,
        WrapperEvent.sleepRestartDelay, WrapperEvent.sendActorRestarted k]

/-- Actor lifecycle states (`ActorStatus`; `actor.rs` is not under
`src/`).  Modelled from the spec: `Initializing → Running → Restarting →
Terminated` (§3 "Actor lifecycle states"). -/
inductive ActorStatus where
  | initializing : ActorStatus
  | running : ActorStatus
  | restarting : ActorStatus
  | terminated : ActorStatus
deriving DecidableEq

/-- Modelled from the spec: what happens when an actor's future completes
without error — "Explicit completion without error transitions to
`Terminated` and the slot is released (no restart)" (§4.2).  The slot
release is the book's `remove` (the release operation of
address_book.rs). -/
def onActorCompleted (b : AddressBook) (a : Addr) : ActorStatus × AddressBook :=
  (ActorStatus.terminated, b.remove a)


/-- `objs` agrees with the original environment: looking a key up (with the
spawned object as the fallback) gives the same answer as in `env.objects`.
This is the loop invariant for the maps grown by on-miss spawning. -/
def MapAgrees {K E : Type} [DecidableEq K] (env : DEnv K E)
    (objs : List (K × SvObject)) : Prop :=
  ∀ k, (findObj objs k).getD (env.spawn k) = objValue env k

/-- The waiter list the `Multicast` loop accumulates when every duplication
succeeds (`D i` being the `i`-th duplicate): one `(addr, envelope)` pair
per key whose mailbox reports `Full`. -/
def fullWaiters {K E : Type} [DecidableEq K] (env : DEnv K E) (D : Nat → E) :
    List K → Nat → List (Addr × E)
  | [], _ => []
  | k :: ks, i =>
    if (objValue env k).res = SendRes.full then
      ((objValue env k).addr, D i) :: fullWaiters env D ks (i + 1)
    else fullWaiters env D ks (i + 1)

/-- The recipients on which `try_send` is called during a `Multicast` loop:
position `i` is skipped exactly when the `i`-th duplication fails. -/
def triedSpec {K E : Type} (dup : Nat → Option E) : Nat → List K → List K
  | _, [] => []
  | i, k :: ks =>
    if (dup i).isSome then k :: triedSpec dup (i + 1) ks else triedSpec dup (i + 1) ks

/-- `fullWaiters` for the `Broadcast` loop, which walks object-map entries
instead of routed keys. -/
def bFullWaiters {K E : Type} (D : Nat → E) : List (K × SvObject) → Nat → List (Addr × E)
  | [], _ => []
  | (_, o) :: rest, i =>
    if o.res = SendRes.full then (o.addr, D i) :: bFullWaiters D rest (i + 1)
    else bFullWaiters D rest (i + 1)

/-! ## Helper lemmas -/

theorem dump_gen_succ (st : DumpState) (p : Nat) : (dump st p).1.gen = st.gen + 1 := by
  by_cases h : st.queue.length ≥ SHARD_MAX_LEN <;> simp [dump, generateSeqNo, h]

theorem seqItems_take (g m : Nat) (ps : List Nat) :
    (seqItems g ps).take m = seqItems g (ps.take m) := by
  induction ps generalizing g m with
  | nil => simp [seqItems]
  | cons p ps ih =>
    cases m with
    | zero => simp [seqItems]
    | succ m => simp [seqItems, ih]

theorem seqItems_length (g : Nat) (ps : List Nat) : (seqItems g ps).length = ps.length := by
  induction ps generalizing g with
  | nil => rfl
  | cons p ps ih => simp [seqItems, ih]

theorem seqItems_map_payload (g : Nat) (ps : List Nat) :
    (seqItems g ps).map DumpItem.payload = ps := by
  induction ps generalizing g with
  | nil => rfl
  | cons p ps ih => simp [seqItems, ih]

theorem seqItems_map_seq (g : Nat) (ps : List Nat) :
    (seqItems g ps).map DumpItem.sequence_no = List.range' (g + 1) ps.length := by
  induction ps generalizing g with
  | nil => rfl
  | cons p ps ih => simp [seqItems, ih, List.range'_succ]

theorem seqItems_seq_gt (g : Nat) (ps : List Nat) :
    ∀ it ∈ seqItems g ps, g < it.sequence_no := by
  induction ps generalizing g with
  | nil => intro it h; simp [seqItems] at h
  | cons p ps ih =>
    intro it h
    rcases (by simpa [seqItems] using h : it = { sequence_no := g + 1, payload := p } ∨
        it ∈ seqItems (g + 1) ps) with h | h
    · simp [h]
    · exact Nat.lt_of_succ_le (Nat.le_of_lt (ih (g + 1) it h))

theorem dumpAll_queue (ps : List Nat) : ∀ st : DumpState,
    (dumpAll st ps).queue =
      st.queue ++ (seqItems st.gen ps).take (SHARD_MAX_LEN - st.queue.length) := by
  induction ps with
  | nil => intro st; simp [dumpAll, seqItems]
  | cons p ps ih =>
    intro st
    by_cases h : st.queue.length ≥ SHARD_MAX_LEN
    · have h0 : SHARD_MAX_LEN - st.queue.length = 0 := by omega
      have : dumpAll st (p :: ps) = dumpAll { gen := st.gen + 1, queue := st.queue } ps := by
        simp [dumpAll, dump, generateSeqNo, h]
      rw [this, ih]
      simp [h0]
    · have hstep : dumpAll st (p :: ps) =
          dumpAll { gen := st.gen + 1,
                    queue := st.queue ++ [{ sequence_no := st.gen + 1, payload := p }] } ps := by
        simp [dumpAll, dump, generateSeqNo, h]
      rw [hstep, ih]
      have h2 : SHARD_MAX_LEN - st.queue.length =
          (SHARD_MAX_LEN - (st.queue.length + 1)) + 1 := by omega
      simp [seqItems, h2, List.take_succ_cons]

theorem dumpAll_gen (ps : List Nat) : ∀ st : DumpState,
    (dumpAll st ps).gen = st.gen + ps.length := by
  induction ps with
  | nil => intro st; simp [dumpAll]
  | cons p ps ih =>
    intro st
    have : dumpAll st (p :: ps) = dumpAll (dump st p).1 ps := rfl
    rw [this, ih, dump_gen_succ]
    simp [List.length_cons]
    omega

theorem new_local_mod_slab (k g lid : Nat) (hk : k < SLAB_SPACE) :
    Addr.new_local k g lid % SLAB_SPACE = k := by
  rw [Addr.new_local, Nat.add_comm, Nat.add_mul_mod_self_right, Nat.mod_eq_of_lt hk]

theorem new_local_salt (k g lid : Nat) (hk : k < SLAB_SPACE) :
    (Addr.new_local k g lid).salt = lid % SALT_SPACE := by
  have hS : 0 < SLAB_SPACE := by norm_num [SLAB_SPACE]
  rw [Addr.salt, Addr.new_local, mul_comm, Nat.mul_add_div hS, Nat.div_eq_of_lt hk,
    Nat.add_zero, Nat.add_comm, Nat.add_mul_mod_self_right]
  simp [Nat.mod_mod_of_dvd]

theorem new_local_pos (k g lid : Nat) (hg : g % 2 ^ 8 ≠ 0) :
    0 < Addr.new_local k g lid := by
  have hS : 0 < SLAB_SPACE := by norm_num [SLAB_SPACE]
  have hSalt : 0 < SALT_SPACE := by norm_num [SALT_SPACE]
  have hG : 0 < g % 2 ^ 8 := Nat.pos_of_ne_zero hg
  have h1 : 0 < (g % 2 ^ 8) * SALT_SPACE + lid % SALT_SPACE :=
    Nat.lt_of_lt_of_le (Nat.mul_pos hG hSalt) (Nat.le_add_right _ _)
  have h2 : 0 < ((g % 2 ^ 8) * SALT_SPACE + lid % SALT_SPACE) * SLAB_SPACE :=
    Nat.mul_pos h1 hS
  exact Nat.lt_of_lt_of_le h2 (Nat.le_add_right _ _)

theorem new_local_ne_null (k g lid : Nat) (hg : g % 2 ^ 8 ≠ 0) :
    Addr.new_local k g lid ≠ Addr.null := by
  have h3 := new_local_pos k g lid hg
  simpa [Addr.null] using Nat.pos_iff_ne_zero.mp h3

theorem reserveInsert_launch (b : AddressBook) (g p : Nat) :
    (b.reserveInsert g p).1.launch_id = b.launch_id := by
  unfold AddressBook.reserveInsert
  split
  · rfl
  · split <;> rfl

theorem slabGet_mem (s : Slab) (key : Nat) (o : Object) (h : slabGet s key = some o) :
    ∃ slot ∈ s, slot.content = some o := by
  simp only [slabGet] at h
  split at h
  case _ slot hq =>
    split at h
    · exact ⟨slot, List.get?_mem hq, h⟩
    · exact absurd h (by simp)
  case _ => exact absurd h (by simp)

theorem reserveInsert_spec (b : AddressBook) (g p : Nat) (hs : SlabInv b.local_slab) :
    SlabInv (b.reserveInsert g p).1.local_slab ∧
    (∀ slot ∈ (b.reserveInsert g p).1.local_slab, ∀ o : Object, slot.content = some o →
      (∃ slot2 ∈ b.local_slab, slot2.content = some o) ∨
        ∃ k < SLAB_SPACE, o.addr = Addr.new_local k g b.launch_id) ∧
    (∀ a, (b.reserveInsert g p).2 = some a →
      ∃ k < SLAB_SPACE, a = Addr.new_local k g b.launch_id) := by
  obtain ⟨hlen, hgen⟩ := hs
  unfold AddressBook.reserveInsert
  split
  case _ i hf =>
    have hi : i < b.local_slab.length :=
      (List.findIdx?_eq_some_iff_findIdx_eq.mp hf).1
    obtain ⟨slotI, hqI⟩ : ∃ slot, b.local_slab.get? i = some slot := by
      rw [List.get?_eq_getElem?]
      exact ⟨b.local_slab[i], by simp⟩
    have hmemI : slotI ∈ b.local_slab := List.get?_mem hqI
    have hkey : slotI.gen * INDEX_SPACE + i < SLAB_SPACE := by
      have h1 : slotI.gen < GEN_SPACE := hgen slotI hmemI
      have h2 : i < INDEX_SPACE := Nat.lt_of_lt_of_le hi hlen
      have h3 : slotI.gen * INDEX_SPACE + i < slotI.gen * INDEX_SPACE + INDEX_SPACE := by omega
      have h4 : slotI.gen * INDEX_SPACE + INDEX_SPACE ≤ GEN_SPACE * INDEX_SPACE := by
        have := Nat.succ_le_of_lt h1
        calc slotI.gen * INDEX_SPACE + INDEX_SPACE = (slotI.gen + 1) * INDEX_SPACE := by ring
          _ ≤ GEN_SPACE * INDEX_SPACE := Nat.mul_le_mul_right _ this
      have h5 : GEN_SPACE * INDEX_SPACE = SLAB_SPACE := by norm_num [GEN_SPACE, INDEX_SPACE, SLAB_SPACE]
      omega
    simp only [hqI, Option.getD_some]
    refine ⟨⟨by simpa using hlen, ?_⟩, ?_, ?_⟩
    · intro slot hmem
      rcases List.mem_or_eq_of_mem_set hmem with hmem2 | rfl
      · exact hgen slot hmem2
      · exact hgen slotI hmemI
    · intro slot hmem o ho
      rcases List.mem_or_eq_of_mem_set hmem with hmem2 | rfl
      · exact Or.inl ⟨slot, hmem2, ho⟩
      · refine Or.inr ⟨slotI.gen * INDEX_SPACE + i, hkey, ?_⟩
        have : o = Object.mk (Addr.new_local (slotI.gen * INDEX_SPACE + i) g b.launch_id) p := by
          simpa using ho.symm
        rw [this]
    · intro a ha
      refine ⟨slotI.gen * INDEX_SPACE + i, hkey, ?_⟩
      simpa using ha.symm
  case _ hf =>
    split
    case _ hlt =>
      refine ⟨⟨by simpa using Nat.succ_le_of_lt hlt, ?_⟩, ?_, ?_⟩
      · intro slot hmem
        rcases List.mem_append.mp hmem with hmem2 | hmem2
        · exact hgen slot hmem2
        · have : slot = { gen := 0, content := some (Object.mk (Addr.new_local b.local_slab.length g b.launch_id) p) } := by
            simpa using hmem2
          rw [this]
          norm_num [GEN_SPACE]
      · intro slot hmem o ho
        rcases List.mem_append.mp hmem with hmem2 | hmem2
        · exact Or.inl ⟨slot, hmem2, ho⟩
        · have hslot : slot = { gen := 0, content := some (Object.mk (Addr.new_local b.local_slab.length g b.launch_id) p) } := by
            simpa using hmem2
          refine Or.inr ⟨b.local_slab.length, ?_, ?_⟩
          · calc b.local_slab.length < INDEX_SPACE := hlt
              _ ≤ SLAB_SPACE := by norm_num [INDEX_SPACE, SLAB_SPACE]
          · rw [hslot] at ho
            have ho2 : o = Object.mk (Addr.new_local b.local_slab.length g b.launch_id) p := by
              simpa using ho.symm
            rw [ho2]
      · intro a ha
        refine ⟨b.local_slab.length, ?_, by simpa using ha.symm⟩
        calc b.local_slab.length < INDEX_SPACE := hlt
          _ ≤ SLAB_SPACE := by norm_num [INDEX_SPACE, SLAB_SPACE]
    case _ =>
      refine ⟨⟨hlen, hgen⟩, ?_, ?_⟩
      · intro slot hmem o ho
        exact Or.inl ⟨slot, hmem, ho⟩
      · intro a ha
        exact absurd ha (by simp)

theorem slabRemove_spec (s : Slab) (key : Nat) (hs : SlabInv s) :
    SlabInv (slabRemove s key) ∧
    ∀ slot ∈ slabRemove s key, ∀ o : Object, slot.content = some o →
      ∃ slot2 ∈ s, slot2.content = some o := by
  obtain ⟨hlen, hgen⟩ := hs
  simp only [slabRemove]
  split
  case _ slot hq =>
    split
    case _ hcond =>
      refine ⟨⟨by simpa using hlen, ?_⟩, ?_⟩
      · intro slot2 hmem
        rcases List.mem_or_eq_of_mem_set hmem with hmem2 | rfl
        · exact hgen slot2 hmem2
        · have : 0 < GEN_SPACE := by norm_num [GEN_SPACE]
          exact Nat.mod_lt _ this
      · intro slot2 hmem o ho
        rcases List.mem_or_eq_of_mem_set hmem with hmem2 | rfl
        · exact ⟨slot2, hmem2, ho⟩
        · exact absurd ho (by simp)
    case _ =>
      exact ⟨⟨hlen, hgen⟩, fun slot2 hmem o ho => ⟨slot2, hmem, ho⟩⟩
  case _ =>
    exact ⟨⟨hlen, hgen⟩, fun slot2 hmem o ho => ⟨slot2, hmem, ho⟩⟩

theorem runBook_inv (L : Nat) (ops : List BookOp) : ∀ b : AddressBook, b.launch_id = L →
    SlabInv b.local_slab → SaltInv L b.local_slab →
    (runBook b ops).launch_id = L ∧ SlabInv (runBook b ops).local_slab ∧
      SaltInv L (runBook b ops).local_slab := by
  induction ops with
  | nil => intro b hL hs hsalt; exact ⟨hL, hs, hsalt⟩
  | cons op ops ih =>
    intro b hL hs hsalt
    cases op with
    | mint g p =>
      have hspec := reserveInsert_spec b g p hs
      refine ih (b.reserveInsert g p).1 (by rw [reserveInsert_launch, hL]) hspec.1 ?_
      intro slot hmem o ho
      rcases hspec.2.1 slot hmem o ho with ⟨slot2, hmem2, ho2⟩ | ⟨k, hk, ha⟩
      · exact hsalt slot2 hmem2 o ho2
      · rw [ha, new_local_salt k g b.launch_id hk, hL]
    | del a =>
      have hspec := slabRemove_spec b.local_slab a.into_bits hs
      refine ih (b.remove a) hL hspec.1 ?_
      intro slot hmem o ho
      rcases hspec.2 slot hmem o ho with ⟨slot2, hmem2, ho2⟩
      exact hsalt slot2 hmem2 o ho2

theorem minted_salt (L : Nat) (ops : List BookOp) : ∀ b : AddressBook, b.launch_id = L →
    SlabInv b.local_slab → ∀ a ∈ mintedAddrs b ops, a.salt = L % SALT_SPACE := by
  induction ops with
  | nil => intro b hL hs a ha; simp [mintedAddrs] at ha
  | cons op ops ih =>
    intro b hL hs a ha
    cases op with
    | mint g p =>
      have hspec := reserveInsert_spec b g p hs
      cases hri : b.reserveInsert g p with
      | mk b2 oa =>
        cases oa with
        | some a0 =>
          rw [mintedAddrs, hri] at ha
          simp only [List.mem_cons] at ha
          rcases ha with rfl | ha
          · obtain ⟨k, hk, hak⟩ := hspec.2.2 a (by rw [hri])
            rw [hak, new_local_salt k g b.launch_id hk, hL]
          · refine ih b2 ?_ ?_ a ha
            · have := reserveInsert_launch b g p
              rw [hri] at this
              rw [this, hL]
            · have := hspec.1
              rw [hri] at this
              exact this
        | none =>
          rw [mintedAddrs, hri] at ha
          refine ih b2 ?_ ?_ a ha
          · have := reserveInsert_launch b g p
            rw [hri] at this
            rw [this, hL]
          · have := hspec.1
            rw [hri] at this
            exact this
    | del a2 =>
      rw [mintedAddrs] at ha
      have hspec := slabRemove_spec b.local_slab a2.into_bits hs
      exact ih (b.remove a2) hL hspec.1 a ha

theorem get_none_iff (b : AddressBook) (a : Addr) :
    b.get a = none ↔ a = Addr.null ∨
      slabGet b.local_slab (a.slot_key b.launch_id) = none ∨
      ∃ o : Object, slabGet b.local_slab (a.slot_key b.launch_id) = some o ∧ o.addr ≠ a := by
  unfold AddressBook.get AddressBook.prepare_addr
  by_cases hn : (a : Nat) = 0
  · simp [Addr.is_null, hn, Addr.null]
  · cases hsg : slabGet b.local_slab (a.slot_key b.launch_id) with
    | none => simp [Addr.is_null, hn, Addr.null, hsg, Option.filter]
    | some o =>
      by_cases ho : o.addr = a <;>
        simp [Addr.is_null, hn, Addr.null, hsg, Option.filter, ho]

theorem launch_safety (L1 L2 : Nat) (h1 : L1 < SALT_SPACE) (h2 : L2 < SALT_SPACE)
    (hne : L1 ≠ L2) (ops1 ops2 : List BookOp) (a : Addr)
    (ha : a ∈ mintedAddrs (AddressBook.new L1) ops1) :
    (runBook (AddressBook.new L2) ops2).get a = none := by
  have hinv0 : SlabInv ([] : Slab) := by
    constructor
    · norm_num [INDEX_SPACE]
    · intro slot hmem; simp at hmem
  have hsalt1 : a.salt = L1 % SALT_SPACE :=
    minted_salt L1 ops1 (AddressBook.new L1) rfl hinv0 a ha
  have hinv2 := runBook_inv L2 ops2 (AddressBook.new L2) rfl hinv0
    (fun slot hmem => by simp [AddressBook.new] at hmem)
  rw [get_none_iff]
  cases hsg : slabGet (runBook (AddressBook.new L2) ops2).local_slab
      (a.slot_key (runBook (AddressBook.new L2) ops2).launch_id) with
  | none => exact Or.inr (Or.inl rfl)
  | some o =>
    refine Or.inr (Or.inr ⟨o, rfl, ?_⟩)
    obtain ⟨slot, hmem, ho⟩ := slabGet_mem _ _ _ hsg
    have hsalt2 : o.addr.salt = L2 % SALT_SPACE := hinv2.2.2 slot hmem o ho
    intro hc
    rw [hc] at hsalt2
    rw [hsalt1] at hsalt2
    rw [Nat.mod_eq_of_lt h1, Nat.mod_eq_of_lt h2] at hsalt2
    exact hne hsalt2

theorem mapAgrees_init {K E : Type} [DecidableEq K] (env : DEnv K E) :
    MapAgrees env env.objects := fun _ => rfl

theorem findObj_append_single {K : Type} [DecidableEq K] (objs : List (K × SvObject))
    (k0 k : K) (o0 : SvObject) :
    findObj (objs ++ [(k0, o0)]) k =
      (findObj objs k).or (if k = k0 then some o0 else none) := by
  unfold findObj
  rw [List.find?_append]
  cases hf : objs.find? (fun p => decide (p.1 = k)) with
  | some p => simp
  | none =>
    by_cases hk : k = k0 <;> simp [hk, eq_comm]

theorem lookupOrSpawn_spec {K E : Type} [DecidableEq K] (env : DEnv K E)
    (objs : List (K × SvObject)) (k : K) (hagree : MapAgrees env objs) :
    (lookupOrSpawn env objs k).1 = objValue env k ∧
      MapAgrees env (lookupOrSpawn env objs k).2 := by
  unfold lookupOrSpawn
  cases hf : findObj objs k with
  | some o =>
    have := hagree k
    rw [hf] at this
    exact ⟨this, hagree⟩
  | none =>
    have hval := hagree k
    rw [hf] at hval
    constructor
    · exact hval
    · intro k2
      rw [findObj_append_single]
      cases hf2 : findObj objs k2 with
      | some o2 =>
        have := hagree k2
        rw [hf2] at this
        simpa using this
      | none =>
        have hag2 := hagree k2
        rw [hf2] at hag2
        by_cases hk : k2 = k
        · subst hk
          simpa using hval
        · simpa [hk] using hag2

theorem multicastStep_spec {K E : Type} [DecidableEq K] (env : DEnv K E)
    (st : LoopState K E) (k : K) (hagree : MapAgrees env st.objs) (d : E)
    (hd : env.dup st.dupIdx = some d) :
    multicastStep env st k =
      { objs := (lookupOrSpawn env st.objs k).2,
        waiters := st.waiters ++
          (if (objValue env k).res = SendRes.full then [((objValue env k).addr, d)] else []),
        someone := st.someone || ((objValue env k).res == SendRes.ok),
        dupIdx := st.dupIdx + 1,
        tried := st.tried ++ [k] } := by
  have hp := (lookupOrSpawn_spec env st.objs k hagree).1
  simp only [multicastStep, hd, hp]
  cases hres : (objValue env k).res <;> simp [hres]

theorem multicast_master {K E : Type} [DecidableEq K] (env : DEnv K E) (D : Nat → E)
    (hdup : ∀ i, env.dup i = some (D i)) (ks : List K) :
    ∀ st : LoopState K E, MapAgrees env st.objs →
      MapAgrees env (ks.foldl (multicastStep env) st).objs ∧
      (ks.foldl (multicastStep env) st).waiters =
        st.waiters ++ fullWaiters env D ks st.dupIdx ∧
      (ks.foldl (multicastStep env) st).someone =
        (st.someone || ks.any fun k => (objValue env k).res == SendRes.ok) ∧
      (ks.foldl (multicastStep env) st).dupIdx = st.dupIdx + ks.length ∧
      (ks.foldl (multicastStep env) st).tried = st.tried ++ ks := by
  induction ks with
  | nil => intro st hagree; simp [fullWaiters, hagree]
  | cons k ks ih =>
    intro st hagree
    have hstep := multicastStep_spec env st k hagree (D st.dupIdx) (hdup st.dupIdx)
    have hagree2 : MapAgrees env (multicastStep env st k).objs := by
      rw [hstep]
      exact (lookupOrSpawn_spec env st.objs k hagree).2
    have hfold : (k :: ks).foldl (multicastStep env) st =
        ks.foldl (multicastStep env) (multicastStep env st k) := rfl
    obtain ⟨ha, hw, hs, hd2, ht⟩ := ih (multicastStep env st k) hagree2
    rw [hfold]
    refine ⟨ha, ?_, ?_, ?_, ?_⟩
    · rw [hw, hstep]
      simp only [fullWaiters]
      cases hres : (objValue env k).res <;> simp [hres, List.append_assoc]
    · rw [hs, hstep]
      simp [List.any_cons, Bool.or_assoc]
    · rw [hd2, hstep]
      simp
      omega
    · rw [ht, hstep]
      simp

theorem broadcast_master {K E : Type} (dup : Nat → Option E) (D : Nat → E)
    (hdup : ∀ i, dup i = some (D i)) (objs : List (K × SvObject)) :
    ∀ st : LoopState K E,
      (broadcastLoop dup objs st).2 = false ∧
      (broadcastLoop dup objs st).1.objs = st.objs ∧
      (broadcastLoop dup objs st).1.waiters = st.waiters ++ bFullWaiters D objs st.dupIdx ∧
      (broadcastLoop dup objs st).1.someone =
        (st.someone || objs.any fun p => p.2.res == SendRes.ok) ∧
      (broadcastLoop dup objs st).1.dupIdx = st.dupIdx + objs.length ∧
      (broadcastLoop dup objs st).1.tried = st.tried ++ objs.map Prod.fst := by
  induction objs with
  | nil => intro st; simp [broadcastLoop, bFullWaiters]
  | cons p rest ih =>
    intro st
    obtain ⟨k, o⟩ := p
    have hgen : ∀ st2 : LoopState K E, st2.objs = st.objs →
        st2.waiters = st.waiters ++
          (if o.res = SendRes.full then [(o.addr, D st.dupIdx)] else []) →
        st2.someone = (st.someone || (o.res == SendRes.ok)) →
        st2.dupIdx = st.dupIdx + 1 → st2.tried = st.tried ++ [k] →
        (broadcastLoop dup rest st2).2 = false ∧
        (broadcastLoop dup rest st2).1.objs = st.objs ∧
        (broadcastLoop dup rest st2).1.waiters =
          st.waiters ++ bFullWaiters D ((k, o) :: rest) st.dupIdx ∧
        (broadcastLoop dup rest st2).1.someone =
          (st.someone || ((k, o) :: rest).any fun p => p.2.res == SendRes.ok) ∧
        (broadcastLoop dup rest st2).1.dupIdx = st.dupIdx + ((k, o) :: rest).length ∧
        (broadcastLoop dup rest st2).1.tried =
          st.tried ++ ((k, o) :: rest).map Prod.fst := by
      intro st2 h1 h2 h3 h4 h5
      obtain ⟨ib, io, iw, is2, id2, it⟩ := ih st2
      refine ⟨ib, by rw [io, h1], ?_, ?_, ?_, ?_⟩
      · rw [iw, h2, h4]
        cases hres : o.res <;> simp [bFullWaiters, hres, List.append_assoc]
      · rw [is2, h3]
        simp [List.any_cons, Bool.or_assoc]
      · rw [id2, h4]
        simp
        omega
      · rw [it, h5]
        simp
    cases hres : o.res <;>
      simp only [broadcastLoop, hdup st.dupIdx, hres] <;>
      exact hgen _ rfl (by simp [hres]) (by simp [hres]) rfl rfl

theorem broadcast_stop {K E : Type} (dup : Nat → Option E) :
    ∀ (objs : List (K × SvObject)) (st : LoopState K E) (j : Nat),
      (∀ i < j, (dup (st.dupIdx + i)).isSome) → dup (st.dupIdx + j) = none →
      j < objs.length →
      (broadcastLoop dup objs st).2 = true ∧
      (broadcastLoop dup objs st).1.tried = st.tried ++ (objs.take j).map Prod.fst ∧
      (broadcastLoop dup objs st).1.dupIdx = st.dupIdx + j + 1 := by
  intro objs
  induction objs with
  | nil => intro st j hpre hj hlen; simp at hlen
  | cons p rest ih =>
    intro st j hpre hj hlen
    obtain ⟨k, o⟩ := p
    cases j with
    | zero =>
      rw [Nat.add_zero] at hj
      simp [broadcastLoop, hj]
    | succ j =>
      obtain ⟨d, hd⟩ := Option.isSome_iff_exists.mp (hpre 0 (Nat.succ_pos j))
      rw [Nat.add_zero] at hd
      have hshift : ∀ st2 : LoopState K E, st2.dupIdx = st.dupIdx + 1 →
          st2.tried = st.tried ++ [k] →
          (broadcastLoop dup rest st2).2 = true ∧
          (broadcastLoop dup rest st2).1.tried =
            st.tried ++ (((k, o) :: rest).take (j + 1)).map Prod.fst ∧
          (broadcastLoop dup rest st2).1.dupIdx = st.dupIdx + (j + 1) + 1 := by
        intro st2 hidx htried
        have h1 : ∀ i < j, (dup (st2.dupIdx + i)).isSome := by
          intro i hi
          rw [hidx]
          have := hpre (i + 1) (by omega)
          have harith : st.dupIdx + (i + 1) = st.dupIdx + 1 + i := by omega
          rw [harith] at this
          exact this
        have h2 : dup (st2.dupIdx + j) = none := by
          rw [hidx]
          have harith : st.dupIdx + 1 + j = st.dupIdx + (j + 1) := by omega
          rw [harith]
          exact hj
        have h3 : j < rest.length := by
          simp at hlen
          omega
        obtain ⟨hb1, hb2, hb3⟩ := ih st2 j h1 h2 h3
        refine ⟨hb1, ?_, ?_⟩
        · rw [hb2, htried]
          simp [List.take_succ_cons, List.append_assoc]
        · rw [hb3, hidx]
          omega
      cases hres : o.res <;>
        simp only [broadcastLoop, hd, hres] <;>
        exact hshift _ rfl rfl

theorem fullWaiters_eq_nil {K E : Type} [DecidableEq K] (env : DEnv K E) (D : Nat → E)
    (ks : List K) : ∀ i, fullWaiters env D ks i = [] ↔
      ∀ k ∈ ks, (objValue env k).res ≠ SendRes.full := by
  induction ks with
  | nil => intro i; simp [fullWaiters]
  | cons k ks ih =>
    intro i
    by_cases hres : (objValue env k).res = SendRes.full <;>
      simp [fullWaiters, hres, ih]

theorem bFullWaiters_eq_nil {K E : Type} (D : Nat → E) (objs : List (K × SvObject)) :
    ∀ i, bFullWaiters D objs i = [] ↔ ∀ p ∈ objs, p.2.res ≠ SendRes.full := by
  induction objs with
  | nil => intro i; simp [bFullWaiters]
  | cons p rest ih =>
    intro i
    obtain ⟨k, o⟩ := p
    by_cases hres : o.res = SendRes.full <;>
      simp [bFullWaiters, hres, ih]

theorem multicast_tried {K E : Type} [DecidableEq K] (env : DEnv K E) (ks : List K) :
    ∀ st : LoopState K E,
      (ks.foldl (multicastStep env) st).dupIdx = st.dupIdx + ks.length ∧
      (ks.foldl (multicastStep env) st).tried =
        st.tried ++ triedSpec env.dup st.dupIdx ks := by
  induction ks with
  | nil => intro st; simp [triedSpec]
  | cons k ks ih =>
    intro st
    have hfold : (k :: ks).foldl (multicastStep env) st =
        ks.foldl (multicastStep env) (multicastStep env st k) := rfl
    obtain ⟨ihd, iht⟩ := ih (multicastStep env st k)
    have hstep : (multicastStep env st k).dupIdx = st.dupIdx + 1 ∧
        ((env.dup st.dupIdx).isSome = true →
          (multicastStep env st k).tried = st.tried ++ [k]) ∧
        ((env.dup st.dupIdx).isSome = false →
          (multicastStep env st k).tried = st.tried) := by
      unfold multicastStep
      cases hd : env.dup st.dupIdx with
      | none => simp
      | some d =>
        cases hres : (lookupOrSpawn env st.objs k).1.res <;> simp [hres]
    rw [hfold]
    constructor
    · rw [ihd, hstep.1]
      simp [triedSpec]
      omega
    · rw [iht, hstep.1]
      cases hd : (env.dup st.dupIdx).isSome with
      | true =>
        rw [hstep.2.1 hd]
        simp [triedSpec, hd, List.append_assoc]
      | false =>
        rw [hstep.2.2 hd]
        simp [triedSpec, hd]

/-! ## Claim theorems -/

/-- Claim C8: `Combined(L, R).poll_recv` polls `left` first; a ready item of
`left` is returned as is; when `left` is drained the result is exactly
`right`'s poll; when `left` is pending, a ready item of `right` is
returned, and otherwise (right pending or drained) the result is
`Pending`. -/
theorem combined_poll_bias {χ α : Type} (l r : SourceFn χ α) (cx : χ) :
    (∀ e, l cx = Poll.ready (some e) → combinedPoll l r cx = Poll.ready (some e)) ∧
    (l cx = Poll.ready none → combinedPoll l r cx = r cx) ∧
    (l cx = Poll.pending → ∀ e, r cx = Poll.ready (some e) →
      combinedPoll l r cx = Poll.ready (some e)) ∧
    (l cx = Poll.pending → r cx = Poll.pending → combinedPoll l r cx = Poll.pending) ∧
    (l cx = Poll.pending → r cx = Poll.ready none → combinedPoll l r cx = Poll.pending) := by
  refine ⟨fun e h => ?_, fun h => ?_, fun h e h2 => ?_, fun h h2 => ?_, fun h h2 => ?_⟩ <;>
    simp [combinedPoll, h] <;> simp [h2]

/-- Witness for C8 at a concrete instance: both sources ready, the left
item is returned. -/
theorem combined_poll_bias_witness :
    combinedPoll (fun _ => Poll.ready (some 3)) (fun _ => Poll.ready (some 4)) () =
      Poll.ready (some 3) :=
  (combined_poll_bias (fun _ => Poll.ready (some 3)) (fun _ => Poll.ready (some 4)) ()).1 3 rfl

/-- Claim C10: the unit source returns `Ready(None)` on every poll, and it
is a left identity of `Combined`: `Combined((), R)` polls exactly as `R`
does. -/
theorem unit_source_left_identity :
    (∀ (χ α : Type) (cx : χ), (unitPoll : SourceFn χ α) cx = Poll.ready none) ∧
    (∀ (χ α : Type) (r : SourceFn χ α) (cx : χ), combinedPoll unitPoll r cx = r cx) := by
  exact ⟨fun χ α cx => rfl, fun χ α r cx => rfl⟩

/-- Claim C7: on an `UpdateConfig` whose payload fails to decode, the
supervisor replies with `ConfigRejected{reason}`, returns `Done`, leaves
the control block unchanged, never calls `router.update` and performs no
routing or delivery. -/
theorem update_config_rejected {C E : Type} (control : ControlBlock C) (reason : String)
    (routeReport : RouteReport E) :
    (handleUpdateConfig control (Except.error reason) routeReport).control = control ∧
    (handleUpdateConfig control (Except.error reason) routeReport).routerUpdates = [] ∧
    (handleUpdateConfig control (Except.error reason) routeReport).replies =
      [CfgReply.configRejected reason] ∧
    (handleUpdateConfig control (Except.error reason) routeReport).routed = false ∧
    (handleUpdateConfig control (Except.error reason) routeReport).report = RouteReport.done :=
  ⟨rfl, rfl, rfl, rfl, rfl⟩

/-- Claim C4 counterexample: when the shard queue already holds
`SHARD_MAX_LEN` items, `dump` drops the item and the queue is unchanged —
but, contrary to the claim, NO metric is incremented: the drop branch of
the source is a bare `return` with `// TODO: emit some metric.`, so the
effect list is empty. -/
theorem dump_full_no_metric :
    (dump { gen := 0, queue := List.replicate SHARD_MAX_LEN { sequence_no := 1, payload := 0 } }
        5).1.queue = List.replicate SHARD_MAX_LEN { sequence_no := 1, payload := 0 } ∧
    DumpEffect.metricIncremented ∉
      (dump { gen := 0, queue := List.replicate SHARD_MAX_LEN { sequence_no := 1, payload := 0 } }
        5).2 := by
  constructor <;> simp [dump, generateSeqNo]

/-- Claim C4 (amended): a `dump` on a shard whose queue already holds
`SHARD_MAX_LEN = 300_000` items drops the item silently — the queue is
unchanged and no effect (in particular no metric) is emitted; pushing
`SHARD_MAX_LEN + k` items into a single shard without draining drops
exactly the last `k` (hence at most `k`) and preserves the first
`SHARD_MAX_LEN` in push order. -/
theorem dump_bounded_shed :
    (∀ (st : DumpState) (p : Nat), st.queue.length = SHARD_MAX_LEN →
      (dump st p).1.queue = st.queue ∧ (dump st p).2 = []) ∧
    (∀ (ps : List Nat) (k : Nat), ps.length = SHARD_MAX_LEN + k →
      (dumpAll dumpState0 ps).queue = seqItems 0 (ps.take SHARD_MAX_LEN) ∧
      (dumpAll dumpState0 ps).queue.map DumpItem.payload = ps.take SHARD_MAX_LEN ∧
      ps.length - (dumpAll dumpState0 ps).queue.length = k) := by
  constructor
  · intro st p h
    constructor <;> simp [dump, generateSeqNo, h]
  · intro ps k h
    have hq : (dumpAll dumpState0 ps).queue = seqItems 0 (ps.take SHARD_MAX_LEN) := by
      rw [dumpAll_queue]
      simp [dumpState0, seqItems_take]
    refine ⟨hq, ?_, ?_⟩
    · rw [hq, seqItems_map_payload]
    · rw [hq, seqItems_length]
      simp [h]

/-- Witness for C4 (amended) at `k = 1`: `SHARD_MAX_LEN + 1` pushes keep
the first `SHARD_MAX_LEN` items and drop one. -/
theorem dump_bounded_shed_witness :
    (dumpAll dumpState0 (List.replicate (SHARD_MAX_LEN + 1) 0)).queue =
      seqItems 0 ((List.replicate (SHARD_MAX_LEN + 1) 0).take SHARD_MAX_LEN) ∧
    (dumpAll dumpState0 (List.replicate (SHARD_MAX_LEN + 1) 0)).queue.map DumpItem.payload =
      (List.replicate (SHARD_MAX_LEN + 1) 0).take SHARD_MAX_LEN ∧
    (List.replicate (SHARD_MAX_LEN + 1) 0).length -
      (dumpAll dumpState0 (List.replicate (SHARD_MAX_LEN + 1) 0)).queue.length = 1 :=
  dump_bounded_shed.2 (List.replicate (SHARD_MAX_LEN + 1) 0) 1 (by simp)

/-- Claim C9: the sequence number is generated before the shard-capacity
check, so even a shed item consumes one (`gen` always advances); a full
shard leaves the queue unchanged; after pushing `SHARD_MAX_LEN + k` items
the retained sequence numbers are exactly `1..SHARD_MAX_LEN` while the
generator stands at `SHARD_MAX_LEN + k`, and every item retained after a
drain has a sequence number strictly above `SHARD_MAX_LEN + k` — the `k`
consumed numbers are gaps that never appear in any retained item. -/
theorem shed_consumes_sequence_no :
    (∀ (st : DumpState) (p : Nat), (dump st p).1.gen = st.gen + 1) ∧
    (∀ (st : DumpState) (p : Nat), st.queue.length ≥ SHARD_MAX_LEN →
      (dump st p).1.queue = st.queue) ∧
    (∀ (ps : List Nat) (k : Nat), ps.length = SHARD_MAX_LEN + k →
      (dumpAll dumpState0 ps).queue.map DumpItem.sequence_no = List.range' 1 SHARD_MAX_LEN ∧
      (dumpAll dumpState0 ps).gen = SHARD_MAX_LEN + k) ∧
    (∀ (k : Nat) (more : List Nat),
      ∀ it ∈ (dumpAll { gen := SHARD_MAX_LEN + k, queue := [] } more).queue,
        SHARD_MAX_LEN + k < it.sequence_no) := by
  refine ⟨dump_gen_succ, ?_, ?_, ?_⟩
  · intro st p h
    simp [dump, generateSeqNo, h]
  · intro ps k h
    constructor
    · rw [dumpAll_queue]
      simp [dumpState0, seqItems_take, seqItems_map_seq]
      simp [h]
    · rw [dumpAll_gen]
      simp [dumpState0, h]
  · intro k more it hit
    rw [dumpAll_queue] at hit
    simp at hit
    exact seqItems_seq_gt _ more it (List.take_subset _ _ hit)

/-- Witness for C9 at `k = 1`: after `SHARD_MAX_LEN + 1` pushes the
retained sequence numbers are `1..SHARD_MAX_LEN` and the generator stands
at `SHARD_MAX_LEN + 1`. -/
theorem shed_consumes_sequence_no_witness :
    (dumpAll dumpState0 (List.replicate (SHARD_MAX_LEN + 1) 0)).queue.map
        DumpItem.sequence_no = List.range' 1 SHARD_MAX_LEN ∧
    (dumpAll dumpState0 (List.replicate (SHARD_MAX_LEN + 1) 0)).gen = SHARD_MAX_LEN + 1 :=
  shed_consumes_sequence_no.2.2.1 (List.replicate (SHARD_MAX_LEN + 1) 0) 1 (by simp)

/-- Claim C1: on a fresh book, reserving a vacant entry in a (valid,
nonzero) group and inserting an `Object` yields an address `A` with
`get(A)` returning that object; after `remove(A)` the slot is released and
`get(A)` returns nothing; a second `remove(A)` is a no-op (idempotent on an
already-empty slot). -/
theorem register_lookup_remove (lid g p : Nat) (hg : g % 2 ^ 8 ≠ 0) :
    ((AddressBook.new lid).reserveInsert g p).2 = some (Addr.new_local 0 g lid) ∧
    ((AddressBook.new lid).reserveInsert g p).1.get (Addr.new_local 0 g lid) =
      some { addr := Addr.new_local 0 g lid, payload := p } ∧
    (((AddressBook.new lid).reserveInsert g p).1.remove (Addr.new_local 0 g lid)).get
      (Addr.new_local 0 g lid) = none ∧
    ((((AddressBook.new lid).reserveInsert g p).1.remove (Addr.new_local 0 g lid)).remove
      (Addr.new_local 0 g lid)) =
      ((AddressBook.new lid).reserveInsert g p).1.remove (Addr.new_local 0 g lid) := by
  have hne : Addr.new_local 0 g lid ≠ 0 := by
    simpa [Addr.null] using new_local_ne_null 0 g lid hg
  have hlow : Addr.new_local 0 g lid % SLAB_SPACE = 0 :=
    new_local_mod_slab 0 g lid (by norm_num [SLAB_SPACE])
  have hri : (AddressBook.new lid).reserveInsert g p =
      ({ launch_id := lid,
         local_slab := [{ gen := 0, content := some ⟨Addr.new_local 0 g lid, p⟩ }] },
        some (Addr.new_local 0 g lid)) := by
    norm_num [AddressBook.reserveInsert, AddressBook.new, INDEX_SPACE]
  rw [hri]
  have hget : AddressBook.get
      { launch_id := lid,
        local_slab := [{ gen := 0, content := some ⟨Addr.new_local 0 g lid, p⟩ }] }
      (Addr.new_local 0 g lid) = some { addr := Addr.new_local 0 g lid, payload := p } := by
    simp [AddressBook.get, AddressBook.prepare_addr, Addr.is_null, hne, Addr.slot_key,
      slabGet, hlow, Option.filter]
  have hrm : AddressBook.remove
      { launch_id := lid,
        local_slab := [{ gen := 0, content := some ⟨Addr.new_local 0 g lid, p⟩ }] }
      (Addr.new_local 0 g lid) =
      { launch_id := lid, local_slab := [{ gen := 1, content := none }] } := by
    norm_num [AddressBook.remove, Addr.into_bits, slabRemove, hlow, GEN_SPACE]
    simp
  refine ⟨rfl, hget, ?_, ?_⟩
  · rw [hrm]
    simp [AddressBook.get, AddressBook.prepare_addr, Addr.is_null, hne, Addr.slot_key,
      slabGet, hlow, Option.filter]
  · rw [hrm]
    simp [AddressBook.remove, Addr.into_bits, slabRemove, hlow]

/-- Witness for C1 at the spec scenario: launch id 7, group 3. -/
theorem register_lookup_remove_witness :
    ((AddressBook.new 7).reserveInsert 3 42).2 = some (Addr.new_local 0 3 7) ∧
    ((AddressBook.new 7).reserveInsert 3 42).1.get (Addr.new_local 0 3 7) =
      some { addr := Addr.new_local 0 3 7, payload := 42 } ∧
    (((AddressBook.new 7).reserveInsert 3 42).1.remove (Addr.new_local 0 3 7)).get
      (Addr.new_local 0 3 7) = none ∧
    ((((AddressBook.new 7).reserveInsert 3 42).1.remove (Addr.new_local 0 3 7)).remove
      (Addr.new_local 0 3 7)) =
      ((AddressBook.new 7).reserveInsert 3 42).1.remove (Addr.new_local 0 3 7) :=
  register_lookup_remove 7 3 42 (by decide)

/-- Claim C2: `get` returns nothing exactly when the address is `NULL`, the
slot is empty, or the stored object records a different address; and an
address minted by a book with launch id `L1` never resolves against a book
created with launch id `L2 ≠ L1`, whatever operations either book has
performed. -/
theorem get_resolution_rule :
    (∀ (b : AddressBook) (a : Addr), b.get a = none ↔ a = Addr.null ∨
      slabGet b.local_slab (a.slot_key b.launch_id) = none ∨
      ∃ o : Object, slabGet b.local_slab (a.slot_key b.launch_id) = some o ∧ o.addr ≠ a) ∧
    (∀ L1 L2 : Nat, L1 < SALT_SPACE → L2 < SALT_SPACE → L1 ≠ L2 →
      ∀ (ops1 ops2 : List BookOp) (a : Addr),
        a ∈ mintedAddrs (AddressBook.new L1) ops1 →
        (runBook (AddressBook.new L2) ops2).get a = none) :=
  ⟨get_none_iff, fun L1 L2 h1 h2 hne ops1 ops2 a ha =>
    launch_safety L1 L2 h1 h2 hne ops1 ops2 a ha⟩

/-- Witness for C2: the null and mismatch characterization at a concrete
book, and launch-id safety for `L1 = 7` against `L2 = 8` on concrete
operation sequences. -/
theorem get_resolution_rule_witness :
    ((AddressBook.new 7).get Addr.null = none) ∧
    (runBook (AddressBook.new 8) [BookOp.mint 3 42]).get (Addr.new_local 0 3 7) = none :=
  ⟨(get_resolution_rule.1 (AddressBook.new 7) Addr.null).mpr (Or.inl rfl),
    get_resolution_rule.2 7 8 (by decide) (by decide) (by decide)
      [BookOp.mint 3 42] [BookOp.mint 3 42] (Addr.new_local 0 3 7) (by decide)⟩

/-- Claim C3: when the spawned actor future completes without error the
wrapper only logs `started`/`finished` — it sends no `ActorBlocked` and no
`ActorRestarted` (no restart) — and the completion transitions the actor to
`Terminated` and releases its `AddressBook` slot, after which the address
no longer resolves. -/
theorem clean_exit_no_restart :
    (∀ k : Nat, actorWrapper ExecOutcome.ok k =
      [WrapperEvent.logStarted, WrapperEvent.logFinished]) ∧
    (∀ (k : Nat) (e : WrapperEvent Nat), e ∈ actorWrapper ExecOutcome.ok k →
      (∀ k2, e ≠ WrapperEvent.sendActorBlocked k2) ∧
      (∀ k2, e ≠ WrapperEvent.sendActorRestarted k2)) ∧
    (∀ (b : AddressBook) (a : Addr),
      (onActorCompleted b a).1 = ActorStatus.terminated ∧
      (onActorCompleted b a).2 = b.remove a) ∧
    (onActorCompleted ((AddressBook.new 7).reserveInsert 3 42).1
        (Addr.new_local 0 3 7)).2.get (Addr.new_local 0 3 7) = none := by
  refine ⟨fun k => rfl, ?_, fun b a => ⟨rfl, rfl⟩, by decide⟩
  intro k e he
  have he2 : e = WrapperEvent.logStarted ∨ e = WrapperEvent.logFinished := by
    simpa [actorWrapper] using he
  rcases he2 with rfl | rfl <;> exact ⟨fun k2 => by simp, fun k2 => by simp⟩

/-- Witness for C3: the first wrapper event of a clean run is neither an
`ActorBlocked` nor an `ActorRestarted` message. -/
theorem clean_exit_no_restart_witness :
    (∀ k2, (WrapperEvent.logStarted : WrapperEvent Nat) ≠ WrapperEvent.sendActorBlocked k2) ∧
    (∀ k2, (WrapperEvent.logStarted : WrapperEvent Nat) ≠ WrapperEvent.sendActorRestarted k2) :=
  clean_exit_no_restart.2.1 0 WrapperEvent.logStarted (by decide)

/-- Claim C5: `do_handle` maps `try_send` results to `RouteReport` as the
spec table states — Unicast: accepted ↦ `Done`, full ↦ `Wait(addr,
envelope)`, closed ↦ `Closed(envelope)`; Multicast/Broadcast (when every
duplication succeeds): all accepted ↦ `Done`, some accepted and others
full ↦ `WaitAll(true, waiters)`, none accepted and some full ↦
`WaitAll(false, waiters)`, none accepted and all closed ↦
`Closed(envelope)`; `Discard`/`Default` ↦ `Done`. -/
theorem route_report_table {K E : Type} [DecidableEq K] (env : DEnv K E) (e0 : E)
    (D : Nat → E) (hdup : ∀ i, env.dup i = some (D i)) :
    (∀ k, (objValue env k).res = SendRes.ok →
      doHandle env e0 (Outcome.unicast k) = RouteReport.done) ∧
    (∀ k, (objValue env k).res = SendRes.full →
      doHandle env e0 (Outcome.unicast k) = RouteReport.wait (objValue env k).addr e0) ∧
    (∀ k, (objValue env k).res = SendRes.closed →
      doHandle env e0 (Outcome.unicast k) = RouteReport.closed e0) ∧
    (∀ ks, ks ≠ [] → (∀ k ∈ ks, (objValue env k).res = SendRes.ok) →
      doHandle env e0 (Outcome.multicast ks) = RouteReport.done) ∧
    (∀ ks, (∃ k ∈ ks, (objValue env k).res = SendRes.ok) →
      (∃ k ∈ ks, (objValue env k).res = SendRes.full) →
      ∃ ws, ws ≠ [] ∧
        doHandle env e0 (Outcome.multicast ks) = RouteReport.waitAll true ws) ∧
    (∀ ks, (∀ k ∈ ks, (objValue env k).res ≠ SendRes.ok) →
      (∃ k ∈ ks, (objValue env k).res = SendRes.full) →
      ∃ ws, ws ≠ [] ∧
        doHandle env e0 (Outcome.multicast ks) = RouteReport.waitAll false ws) ∧
    (∀ ks, ks ≠ [] → (∀ k ∈ ks, (objValue env k).res = SendRes.closed) →
      doHandle env e0 (Outcome.multicast ks) = RouteReport.closed e0) ∧
    (env.objects ≠ [] → (∀ p ∈ env.objects, p.2.res = SendRes.ok) →
      doHandle env e0 Outcome.broadcast = RouteReport.done) ∧
    ((∃ p ∈ env.objects, p.2.res = SendRes.ok) →
      (∃ p ∈ env.objects, p.2.res = SendRes.full) →
      ∃ ws, ws ≠ [] ∧ doHandle env e0 Outcome.broadcast = RouteReport.waitAll true ws) ∧
    ((∀ p ∈ env.objects, p.2.res ≠ SendRes.ok) →
      (∃ p ∈ env.objects, p.2.res = SendRes.full) →
      ∃ ws, ws ≠ [] ∧ doHandle env e0 Outcome.broadcast = RouteReport.waitAll false ws) ∧
    (env.objects ≠ [] → (∀ p ∈ env.objects, p.2.res = SendRes.closed) →
      doHandle env e0 Outcome.broadcast = RouteReport.closed e0) ∧
    doHandle env e0 Outcome.discard = RouteReport.done ∧
    doHandle env e0 Outcome.dfl = RouteReport.done := by
  have huni : ∀ k, doHandle env e0 (Outcome.unicast k) =
      (match (objValue env k).res with
        | SendRes.ok => RouteReport.done
        | SendRes.full => RouteReport.wait (objValue env k).addr e0
        | SendRes.closed => RouteReport.closed e0) := by
    intro k
    have hp := (lookupOrSpawn_spec env env.objects k (mapAgrees_init env)).1
    simp only [doHandle, doHandleFull, hp]
  have hmc : ∀ ks : List K, doHandle env e0 (Outcome.multicast ks) =
      finishReport e0 (ks.foldl (multicastStep env) (loopState0 env)) := fun ks => rfl
  have hmaster : ∀ ks : List K,
      (ks.foldl (multicastStep env) (loopState0 env)).waiters = fullWaiters env D ks 0 ∧
      (ks.foldl (multicastStep env) (loopState0 env)).someone =
        ks.any fun k => (objValue env k).res == SendRes.ok := by
    intro ks
    obtain ⟨_, hw, hs, _, _⟩ :=
      multicast_master env D hdup ks (loopState0 env) (mapAgrees_init env)
    constructor
    · simpa [loopState0] using hw
    · simpa [loopState0] using hs
  have hbc := broadcast_master env.dup D hdup env.objects (loopState0 env)
  have hbr : doHandle env e0 Outcome.broadcast =
      finishReport e0 (broadcastLoop env.dup env.objects (loopState0 env)).1 := by
    simp only [doHandle, doHandleFull, hbc.1]
    simp
  have hbw : (broadcastLoop env.dup env.objects (loopState0 env)).1.waiters =
      bFullWaiters D env.objects 0 := by simpa [loopState0] using hbc.2.2.1
  have hbs : (broadcastLoop env.dup env.objects (loopState0 env)).1.someone =
      env.objects.any fun p => p.2.res == SendRes.ok := by
    simpa [loopState0] using hbc.2.2.2.1
  refine ⟨fun k h => by rw [huni k, h], fun k h => by rw [huni k, h],
    fun k h => by rw [huni k, h], ?_, ?_, ?_, ?_, ?_, ?_, ?_, ?_, rfl, rfl⟩
  · intro ks hne hall
    obtain ⟨k0, hk0⟩ := List.exists_mem_of_ne_nil ks hne
    have hwnil : fullWaiters env D ks 0 = [] :=
      (fullWaiters_eq_nil env D ks 0).mpr fun k hk => by simp [hall k hk]
    have hsome : (ks.any fun k => (objValue env k).res == SendRes.ok) = true :=
      List.any_eq_true.mpr ⟨k0, hk0, by simp [hall k0 hk0]⟩
    rw [hmc ks, finishReport, (hmaster ks).1, hwnil, (hmaster ks).2, hsome]
    simp
  · intro ks hok hfull
    obtain ⟨kf, hkf, hrf⟩ := hfull
    obtain ⟨ko, hko, hro⟩ := hok
    have hwne : fullWaiters env D ks 0 ≠ [] := by
      intro hnil
      exact (fullWaiters_eq_nil env D ks 0).mp hnil kf hkf hrf
    have hsome : (ks.any fun k => (objValue env k).res == SendRes.ok) = true :=
      List.any_eq_true.mpr ⟨ko, hko, by simp [hro]⟩
    refine ⟨fullWaiters env D ks 0, hwne, ?_⟩
    rw [hmc ks, finishReport, (hmaster ks).1, (hmaster ks).2, hsome]
    simp [hwne]
  · intro ks hnone hfull
    obtain ⟨kf, hkf, hrf⟩ := hfull
    have hwne : fullWaiters env D ks 0 ≠ [] := by
      intro hnil
      exact (fullWaiters_eq_nil env D ks 0).mp hnil kf hkf hrf
    have hsome : (ks.any fun k => (objValue env k).res == SendRes.ok) = false := by
      rw [List.any_eq_false]
      intro k hk
      simp [hnone k hk]
    refine ⟨fullWaiters env D ks 0, hwne, ?_⟩
    rw [hmc ks, finishReport, (hmaster ks).1, (hmaster ks).2, hsome]
    simp [hwne]
  · intro ks hne hall
    have hwnil : fullWaiters env D ks 0 = [] :=
      (fullWaiters_eq_nil env D ks 0).mpr fun k hk => by simp [hall k hk]
    have hsome : (ks.any fun k => (objValue env k).res == SendRes.ok) = false := by
      rw [List.any_eq_false]
      intro k hk
      simp [hall k hk]
    rw [hmc ks, finishReport, (hmaster ks).1, hwnil, (hmaster ks).2, hsome]
    simp
  · intro hne hall
    obtain ⟨p0, hp0⟩ := List.exists_mem_of_ne_nil env.objects hne
    have hwnil : bFullWaiters D env.objects 0 = [] :=
      (bFullWaiters_eq_nil D env.objects 0).mpr fun p hp => by simp [hall p hp]
    have hsome : (env.objects.any fun p => p.2.res == SendRes.ok) = true :=
      List.any_eq_true.mpr ⟨p0, hp0, by simp [hall p0 hp0]⟩
    rw [hbr, finishReport, hbw, hwnil, hbs, hsome]
    simp
  · intro hok hfull
    obtain ⟨pf, hpf, hrf⟩ := hfull
    obtain ⟨po, hpo, hro⟩ := hok
    have hwne : bFullWaiters D env.objects 0 ≠ [] := by
      intro hnil
      exact (bFullWaiters_eq_nil D env.objects 0).mp hnil pf hpf hrf
    have hsome : (env.objects.any fun p => p.2.res == SendRes.ok) = true :=
      List.any_eq_true.mpr ⟨po, hpo, by simp [hro]⟩
    refine ⟨bFullWaiters D env.objects 0, hwne, ?_⟩
    rw [hbr, finishReport, hbw, hbs, hsome]
    simp [hwne]
  · intro hnone hfull
    obtain ⟨pf, hpf, hrf⟩ := hfull
    have hwne : bFullWaiters D env.objects 0 ≠ [] := by
      intro hnil
      exact (bFullWaiters_eq_nil D env.objects 0).mp hnil pf hpf hrf
    have hsome : (env.objects.any fun p => p.2.res == SendRes.ok) = false := by
      rw [List.any_eq_false]
      intro p hp
      simp [hnone p hp]
    refine ⟨bFullWaiters D env.objects 0, hwne, ?_⟩
    rw [hbr, finishReport, hbw, hbs, hsome]
    simp [hwne]
  · intro hne hall
    have hwnil : bFullWaiters D env.objects 0 = [] :=
      (bFullWaiters_eq_nil D env.objects 0).mpr fun p hp => by simp [hall p hp]
    have hsome : (env.objects.any fun p => p.2.res == SendRes.ok) = false := by
      rw [List.any_eq_false]
      intro p hp
      simp [hall p hp]
    rw [hbr, finishReport, hbw, hwnil, hbs, hsome]
    simp

/-- Witness for C5: a unicast to a key whose mailbox is full yields
`Wait(addr, envelope)`. -/
theorem route_report_table_witness :
    doHandle
      { objects := [(1, { addr := 10, res := SendRes.full })],
        spawn := fun _ => { addr := 11, res := SendRes.ok },
        dup := fun _ => some 0 } (5 : Nat) (Outcome.unicast 1) =
      RouteReport.wait 10 5 :=
  (route_report_table
    { objects := [(1, { addr := 10, res := SendRes.full })],
      spawn := fun _ => { addr := 11, res := SendRes.ok },
      dup := fun _ => some 0 } 5 (fun _ => 0) (fun _ => rfl)).2.1 1 rfl

/-- Claim C6: the envelope is duplicated once per recipient — the Multicast
loop makes exactly one duplication attempt per routed key and calls
`try_send` exactly on the recipients whose duplication succeeded (skipping
a failed one and continuing), while Broadcast duplicates once per existing
object when all duplications succeed, and on the first failed duplication
stops immediately and returns `RouteReport::Done`. -/
theorem envelope_duplication {K E : Type} [DecidableEq K] (env : DEnv K E) (e0 : E) :
    (∀ ks : List K,
      (doHandleFull env e0 (Outcome.multicast ks)).2.dupIdx = ks.length ∧
      (doHandleFull env e0 (Outcome.multicast ks)).2.tried = triedSpec env.dup 0 ks) ∧
    (∀ D : Nat → E, (∀ i, env.dup i = some (D i)) →
      (doHandleFull env e0 Outcome.broadcast).2.dupIdx = env.objects.length ∧
      (doHandleFull env e0 Outcome.broadcast).2.tried = env.objects.map Prod.fst) ∧
    (∀ j, (∀ i < j, (env.dup i).isSome) → env.dup j = none → j < env.objects.length →
      doHandle env e0 Outcome.broadcast = RouteReport.done ∧
      (doHandleFull env e0 Outcome.broadcast).2.tried =
        (env.objects.take j).map Prod.fst ∧
      (doHandleFull env e0 Outcome.broadcast).2.dupIdx = j + 1) := by
  refine ⟨?_, ?_, ?_⟩
  · intro ks
    obtain ⟨hd, ht⟩ := multicast_tried env ks (loopState0 env)
    constructor
    · simpa [doHandleFull, loopState0] using hd
    · simpa [doHandleFull, loopState0] using ht
  · intro D hdup
    have hbc := broadcast_master env.dup D hdup env.objects (loopState0 env)
    constructor
    · simpa [doHandleFull, loopState0] using hbc.2.2.2.2.1
    · simpa [doHandleFull, loopState0] using hbc.2.2.2.2.2
  · intro j hpre hj hlen
    have h1 : ∀ i < j, (env.dup ((loopState0 env : LoopState K E).dupIdx + i)).isSome := by
      intro i hi
      simpa [loopState0] using hpre i hi
    have h2 : env.dup ((loopState0 env : LoopState K E).dupIdx + j) = none := by
      simpa [loopState0] using hj
    obtain ⟨hb1, hb2, hb3⟩ := broadcast_stop env.dup env.objects (loopState0 env) j h1 h2 hlen
    refine ⟨?_, ?_, ?_⟩
    · simp only [doHandle, doHandleFull, hb1]
      simp
    · simpa [doHandleFull, loopState0] using hb2
    · simpa [doHandleFull, loopState0] using hb3

/-- Witness for C6: two objects, duplication fails on the second attempt —
broadcast returns `Done` having tried only the first recipient. -/
theorem envelope_duplication_witness :
    doHandle
      { objects := [(1, { addr := 10, res := SendRes.ok }),
                    (2, { addr := 20, res := SendRes.ok })],
        spawn := fun _ => { addr := 11, res := SendRes.ok },
        dup := fun i => if i = 0 then some 9 else none } (7 : Nat) Outcome.broadcast =
      RouteReport.done ∧
    (doHandleFull
      { objects := [(1, { addr := 10, res := SendRes.ok }),
                    (2, { addr := 20, res := SendRes.ok })],
        spawn := fun _ => { addr := 11, res := SendRes.ok },
        dup := fun i => if i = 0 then some 9 else none } (7 : Nat)
        Outcome.broadcast).2.tried = [1] ∧
    (doHandleFull
      { objects := [(1, { addr := 10, res := SendRes.ok }),
                    (2, { addr := 20, res := SendRes.ok })],
        spawn := fun _ => { addr := 11, res := SendRes.ok },
        dup := fun i => if i = 0 then some 9 else none } (7 : Nat)
        Outcome.broadcast).2.dupIdx = 2 :=
  (envelope_duplication
    { objects := [(1, { addr := 10, res := SendRes.ok }),
                  (2, { addr := 20, res := SendRes.ok })],
      spawn := fun _ => { addr := 11, res := SendRes.ok },
      dup := fun i => if i = 0 then some 9 else none } 7).2.2 1
    (by decide) (by decide) (by decide)


end Elfo
